import Mathlib

/-!
Verification development for the cddl front end: a shallow embedding of
`src/parser.rs` (the early recursive-descent parser) and
`src/validator/parent_visitor.rs` (the arena-based parent-tracking engine),
with theorems settling the specification's claims about them.

Conventions of the embedding:
* The external lexer is modelled as a finite list of tokens; after the list is
  exhausted the token source yields `EOF` forever.  Lexer failures are out of
  scope (the spec treats tokenization as an assumed-correct input).
* Rust `Vec` becomes `List`, machine indices become `Nat`.
* Loops (`while`) become fuel-indexed structural recursion; running out of fuel
  is an explicit outcome (`out_of_fuel` / `OutOfFuel`) distinct from every
  outcome of the source program, so divergence of the source is represented as
  the result being `out_of_fuel` for every fuel.
* `unimplemented!()` (a Rust panic) is modelled as the explicit error value
  `unimplemented`.
* The AST type catalogues (`ast.rs` of both revisions) are not part of the
  given sources; the types below are modelled from the spec's data model (§3)
  and from the fields and variants the given sources construct and match on.
-/

namespace parser

/-- Modelled from the spec: token-level literal values distinguished by kind
(text / byte / int / uint / float); `parser.rs` only matches `Value::TEXT`
and treats every other kind via a catch-all. Float payloads are modelled as
integer bit patterns (floating point itself is out of scope). -/
inductive Value where
  | TEXT (s : String)
  | INT (i : Int)
  | UINT (n : Nat)
  | FLOAT (bits : Int)
  | BYTE (bs : List Nat)
  deriving DecidableEq

/-- Modelled from the spec: the token kinds required by the parser (§6),
including the compound range token carrying both bounds and the inclusivity
flag. -/
inductive Token where
  | EOF
  | IDENT (s : String)
  | VALUE (v : Value)
  | ASSIGN
  | TCHOICEALT
  | GCHOICEALT
  | TCHOICE
  | LANGLEBRACKET
  | RANGLEBRACKET
  | LPAREN
  | COMMA
  | RANGE (lower upper : Int) (inclusive : Bool)
  deriving DecidableEq

/-- Discriminant of a token, mirroring `mem::discriminant`: two tokens have
the same tag iff they are built from the same constructor, payloads ignored. -/
def Token.tag : Token → Nat
  | .EOF => 0
  | .IDENT _ => 1
  | .VALUE _ => 2
  | .ASSIGN => 3
  | .TCHOICEALT => 4
  | .GCHOICEALT => 5
  | .TCHOICE => 6
  | .LANGLEBRACKET => 7
  | .RANGLEBRACKET => 8
  | .LPAREN => 9
  | .COMMA => 10
  | .RANGE _ _ _ => 11

/-- Early-revision `Identifier`: a tuple struct wrapping the token it was made
from (`Identifier(Token)`); `Identifier::from(&str)` wraps an `IDENT` token. -/
structure Identifier where
  tok : Token
  deriving DecidableEq

def Identifier.from_str (s : String) : Identifier := ⟨.IDENT s⟩

/-- Range/control operator of the early AST; `parser.rs` constructs
`RangeCtlOp::RangeOp(inclusive)` from the compound range token. -/
inductive RangeCtlOp where
  | RangeOp (inclusive : Bool)
  deriving DecidableEq

mutual
/-- Early-revision `Type2`: literal value (a rendered string) or a typename
with an optional generic-argument list. -/
inductive Type2 where
  | Value (s : String)
  | Typename (ident : Identifier) (ga : Option GenericArg)

/-- Early-revision `Type1`: a `Type2` with an optional (operator, `Type2`)
pair, as constructed in `parse_type1`. -/
inductive Type1 where
  | mk (type2 : Type2) («operator» : Option (RangeCtlOp × Type2))

/-- Early-revision `GenericArg`: a tuple struct holding the argument `Type1`s. -/
inductive GenericArg where
  | mk (args : List Type1)
end

/-- Early-revision `Type`: a tuple struct holding the ordered choice list. -/
inductive «Type» where
  | mk (choices : List Type1)

def «Type».choices : «Type» → List Type1
  | .mk cs => cs

/-- Early-revision `GenericParm`: a tuple struct holding the parameter
identifiers. -/
structure GenericParm where
  params : List Identifier
  deriving DecidableEq

/-- Early-revision `TypeRule`, with exactly the four fields the struct literal
in `parse_rule` populates; note there is no field recording a group-choice
alternation. -/
structure TypeRule where
  name : Identifier
  generic_param : Option GenericParm
  is_type_choice_alternate : Bool
  value : «Type»

/-- Early-revision `Rule`; `parse_rule` only ever produces `Rule::Type`, the
group variant is modelled from the spec's data model. -/
inductive Rule where
  | «Type» (tr : TypeRule)
  | Group

/-- Early-revision `CDDL` document: the ordered rule sequence. -/
structure CDDL where
  rules : List Rule

/-- Parse-error taxonomy of `parser.rs`: one constructor per distinct error
string, plus `unimplemented` for the `unimplemented!()` panic and
`out_of_fuel` for the embedding's loop fuel. -/
inductive PErr where
  | expected_ident
  | expected_assign
  | illegal_token
  | bad_value
  | unknown
  | unimplemented
  | out_of_fuel
  deriving DecidableEq

/-- The `Parser` struct: remaining lexer output, two-token lookahead, and the
accumulated error list.  An error entry records the (expected, found) token
pair that `peek_error` formats into its message. -/
structure Parser where
  tokens : List Token
  cur_token : Token
  peek_token : Token
  errors : List (Token × Token)
  deriving DecidableEq

/-- Source `next_token`: shift peek into current and pull the next token from the
lexer (EOF once the stream is exhausted). -/
def next_token (p : Parser) : Parser :=
  { tokens := p.tokens.tail
    cur_token := p.peek_token
    peek_token := p.tokens.headD .EOF
    errors := p.errors }

/-- Source `Parser::new`: start from twice-`EOF` lookahead and advance twice. -/
def Parser.new (tokens : List Token) : Parser :=
  next_token (next_token ⟨tokens, .EOF, .EOF, []⟩)

def cur_token_is (p : Parser) (t : Token) : Bool :=
  p.cur_token.tag == t.tag

def peek_token_is (p : Parser) (t : Token) : Bool :=
  p.peek_token.tag == t.tag

/-- Source `peek_error`: push an expected-vs-found entry onto the error list. -/
def peek_error (p : Parser) (t : Token) : Parser :=
  { p with errors := p.errors ++ [(t, p.peek_token)] }

/-- Source `expect_peek`: advance on a discriminant match, otherwise record a peek
error and stay put. -/
def expect_peek (p : Parser) (t : Token) : Bool × Parser :=
  if peek_token_is p t then (true, next_token p)
  else (false, peek_error p t)

/-- Source `parse_type2`: literal text value or typename (generic-argument detection
is a stub in the source and always yields `None`); advances past the consumed
token except on the early-returning `Unknown` path. -/
def parse_type2 (p : Parser) : Except PErr (Type2 × Parser) :=
  match p.cur_token with
  | .VALUE v =>
    match v with
    | .TEXT text => .ok (.Value text, next_token p)
    | _ => .error .bad_value
  | .IDENT ident => .ok (.Typename (Identifier.from_str ident) none, next_token p)
  | _ => .error .unknown

/-- Source `parse_type1`: a pre-lexed compound range token becomes a `Type1` with a
range operator — note this branch returns without advancing past the range
token, exactly as the source does; otherwise a bare `Type2`. -/
def parse_type1 (p : Parser) : Except PErr (Type1 × Parser) :=
  match p.cur_token with
  | .RANGE l u i =>
    .ok (⟨.Value (toString l), some (.RangeOp i, .Value (toString u))⟩, p)
  | _ => do
    let (t2, p) ← parse_type2 p
    .ok (⟨t2, none⟩, p)

/-- Loop body of `parse_type`: while the current token is `/`, advance and
parse another `Type1`, appending in source order. -/
def parse_type_choices (fuel : Nat) (acc : List Type1) (p : Parser) :
    Except PErr (List Type1 × Parser) :=
  match fuel with
  | 0 => .error .out_of_fuel
  | fuel + 1 =>
    if cur_token_is p .TCHOICE then do
      let p := next_token p
      let (t1, p) ← parse_type1 p
      parse_type_choices fuel (acc ++ [t1]) p
    else .ok (acc, p)

/-- Source `parse_type`: one `Type1`, then one more per `/` separator. -/
def parse_type (fuel : Nat) (p : Parser) : Except PErr («Type» × Parser) := do
  let (t1, p) ← parse_type1 p
  let (cs, p) ← parse_type_choices fuel [t1] p
  .ok (.mk cs, p)

/-- Loop body of `parse_genericparm`: until the current token is `>`, collect
identifiers, skip commas, and reject anything else as an illegal token. -/
def parse_genericparm_loop (fuel : Nat) (acc : List Identifier) (p : Parser) :
    Except PErr (List Identifier × Parser) :=
  match fuel with
  | 0 => .error .out_of_fuel
  | fuel + 1 =>
    if cur_token_is p .RANGLEBRACKET then .ok (acc, p)
    else
      match p.cur_token with
      | .IDENT i => parse_genericparm_loop fuel (acc ++ [Identifier.from_str i]) (next_token p)
      | .COMMA => parse_genericparm_loop fuel acc (next_token p)
      | _ => .error .illegal_token

/-- Source `parse_genericparm`: advance past the opening token, run the collection
loop until `>`, then advance past `>`. -/
def parse_genericparm (fuel : Nat) (p : Parser) :
    Except PErr (GenericParm × Parser) := do
  let p := next_token p
  let (ids, p) ← parse_genericparm_loop fuel [] p
  .ok (⟨ids⟩, next_token p)

/-- Loop body of `parse_genericarg`: until the current token is `>`, parse a
full `Type1` and skip a following comma if present. -/
def parse_genericarg_loop (fuel : Nat) (acc : List Type1) (p : Parser) :
    Except PErr (List Type1 × Parser) :=
  match fuel with
  | 0 => .error .out_of_fuel
  | fuel + 1 =>
    if cur_token_is p .RANGLEBRACKET then .ok (acc, p)
    else do
      let (t1, p) ← parse_type1 p
      let p := if cur_token_is p .COMMA then next_token p else p
      parse_genericarg_loop fuel (acc ++ [t1]) p

/-- Source `parse_genericarg`: advance past the opening token, run the element loop
until `>`, then advance past `>`. -/
def parse_genericarg (fuel : Nat) (p : Parser) :
    Except PErr (GenericArg × Parser) := do
  let p := next_token p
  let (args, p) ← parse_genericarg_loop fuel [] p
  .ok (.mk args, next_token p)

/-- Source `parse_rule`: identifier, optional generic parameters, then one of the
three assignment operators tried in order `=`, `/=`, `//=` via short-circuit
`expect_peek` calls; the group-choice flag is computed but never stored in the
produced rule, exactly as in the source; an inline group body (`(`) raises
the unimplemented condition; otherwise the body is a type expression. -/
def parse_rule (fuel : Nat) (p : Parser) : Except PErr (Rule × Parser) :=
  match p.cur_token with
  | .IDENT i => do
    let (gp, p) ←
      if peek_token_is p .LANGLEBRACKET then do
        let (gp, p) ← parse_genericparm fuel p
        Except.ok (some gp, p)
      else Except.ok ((none : Option GenericParm), p)
    let (matched, p) :=
      match expect_peek p .ASSIGN with
      | (true, p) => (true, p)
      | (false, p) =>
        match expect_peek p .TCHOICEALT with
        | (true, p) => (true, p)
        | (false, p) => expect_peek p .GCHOICEALT
    if matched then
      let is_type_choice_alternate := cur_token_is p .TCHOICEALT
      let _is_group_choice_alternate := cur_token_is p .GCHOICEALT
      let p := next_token p
      if cur_token_is p .LPAREN then .error .unimplemented
      else do
        let (t, p) ← parse_type fuel p
        .ok (.«Type» ⟨⟨.IDENT i⟩, gp, is_type_choice_alternate, t⟩, p)
    else .error .expected_assign
  | _ => .error .expected_ident

/-- Loop body of `parse_cddl`: parse rules until the current token is EOF. -/
def parse_cddl_loop (fuel : Nat) (acc : List Rule) (p : Parser) :
    Except PErr (List Rule × Parser) :=
  match fuel with
  | 0 => .error .out_of_fuel
  | fuel + 1 =>
    if p.cur_token = Token.EOF then .ok (acc, p)
    else do
      let (r, p) ← parse_rule fuel p
      parse_cddl_loop fuel (acc ++ [r]) p

/-- Source `parse_cddl`: the document is the accumulated rule sequence. -/
def parse_cddl (fuel : Nat) (p : Parser) : Except PErr (CDDL × Parser) := do
  let (rs, p) ← parse_cddl_loop fuel [] p
  .ok (⟨rs⟩, p)

end parser

namespace ast

/-- Modelled from the spec: identifier leaf node (§3). -/
structure Identifier where
  ident : String
  deriving DecidableEq

/-- Modelled from the spec: byte-string payloads in UTF8/base16/base64
encodings (`token::ByteValue`); payloads are byte sequences. -/
inductive ByteValue where
  | UTF8 (b : List Nat)
  | B16 (b : List Nat)
  | B64 (b : List Nat)
  deriving DecidableEq

/-- Modelled from the spec: the `token::Value` leaf (tagged
int/uint/float/text/byte).  Float payloads are modelled as integer bit
patterns; floating point itself is out of scope. -/
inductive Value where
  | INT (i : Int)
  | UINT (n : Nat)
  | FLOAT (bits : Int)
  | TEXT (s : String)
  | BYTE (b : ByteValue)
  deriving DecidableEq

/-- Modelled from the spec: occurrence indicator payload (`?`, `*`, `+`,
`n*m`). -/
inductive Occur where
  | Optional
  | ZeroOrMore
  | OneOrMore
  | Exact (lower upper : Option Nat)
  deriving DecidableEq

/-- Occurrence node wrapping its `Occur` payload, as accessed by
`visit_occurrence` (`o.occur`). -/
structure Occurrence where
  occur : Occur
  deriving DecidableEq

/-- Modelled from the spec: a `Type1` operator is either a range (with
inclusivity flag) or a named control operator. -/
inductive RangeCtlOp where
  | RangeOp (is_inclusive : Bool)
  | CtlOp (ctrl : String)
  deriving DecidableEq

/-- Generic parameter: wraps its identifier (`param.param`). -/
structure GenericParam where
  param : Identifier
  deriving DecidableEq

/-- Generic parameter list (`params.params`). -/
structure GenericParams where
  params : List GenericParam
  deriving DecidableEq

mutual
/-- The `Type` node: ordered sequence of type choices (`t.type_choices`).
Named `«Type»` because `Type` is reserved in Lean. -/
inductive «Type» where
  | mk (type_choices : List TypeChoice)

/-- A `TypeChoice` wraps one `Type1` (`tc.type1`). -/
inductive TypeChoice where
  | mk (type1 : Type1)

/-- A `Type1`: a `Type2` plus an optional operator (`t1.type2`,
`t1.operator`). -/
inductive Type1 where
  | mk (type2 : Type2) («operator» : Option Operator)

/-- An operator: range/control tag plus its operand `Type2` (`o.type2`). -/
inductive Operator where
  | mk («operator» : RangeCtlOp) (type2 : Type2)

/-- The `Type2` variant set, exactly the variants `visit_type2` matches on
(literals, typename, parenthesized type, map, array, unwrap, choice-from
groups, tagged data). -/
inductive Type2 where
  | IntValue (value : Int)
  | UintValue (value : Nat)
  | FloatValue (value : Int)
  | TextValue (value : String)
  | UTF8ByteString (value : List Nat)
  | B16ByteString (value : List Nat)
  | B64ByteString (value : List Nat)
  | Typename (ident : Identifier) (generic_args : Option GenericArgs)
  | ParenthesizedType (pt : «Type»)
  | Map (group : Group)
  | Array (group : Group)
  | Unwrap (ident : Identifier)
  | ChoiceFromInlineGroup (group : Group)
  | ChoiceFromGroup (ident : Identifier) (generic_args : Option GenericArgs)
  | TaggedData (tag : Option Nat) (t : «Type»)

/-- A group: ordered sequence of group choices (`g.group_choices`). -/
inductive Group where
  | mk (group_choices : List GroupChoice)

/-- A group choice: ordered (entry, trailing-comma flag) pairs
(`gc.group_entries`). -/
inductive GroupChoice where
  | mk (group_entries : List (GroupEntry × Bool))

/-- Group entry variants, as matched by `visit_group_entry`. -/
inductive GroupEntry where
  | ValueMemberKey (ge : ValueMemberKeyEntry)
  | TypeGroupname (ge : TypeGroupnameEntry)
  | InlineGroup (occur : Option Occurrence) (group : Group)

/-- Value-member-key entry: optional occurrence, optional member key, and the
entry type (`entry.occur`, `entry.member_key`, `entry.entry_type`). -/
inductive ValueMemberKeyEntry where
  | mk (occur : Option Occurrence) (member_key : Option MemberKey)
      (entry_type : «Type»)

/-- Typename/groupname entry: optional occurrence, optional generic args, and
the name (`entry.occur`, `entry.generic_args`, `entry.name`). -/
inductive TypeGroupnameEntry where
  | mk (occur : Option Occurrence) (generic_args : Option GenericArgs)
      (name : Identifier)

/-- Member-key variants, as matched by `visit_memberkey`. -/
inductive MemberKey where
  | Type1 (t1 : Type1)
  | Bareword (ident : Identifier)
  | Value (value : Value)
  | NonMemberKey (non_member_key : NonMemberKey)

/-- Non-member-key: a nested group or type in key position. -/
inductive NonMemberKey where
  | Group (group : Group)
  | «Type» (t : «Type»)

/-- Generic argument list (`args.args`). -/
inductive GenericArgs where
  | mk (args : List GenericArg)

/-- One generic argument wrapping a `Type1` (`arg.arg`). -/
inductive GenericArg where
  | mk (arg : Type1)
end

/-- Type rule: name, optional generic parameters, the `/=` flag, and the
value type (fields per the spec's data model and `visit_type_rule`). -/
structure TypeRule where
  name : Identifier
  generic_params : Option GenericParams
  is_type_choice_alternate : Bool
  value : «Type»

/-- Group rule: name, optional generic parameters, the `//=` flag, and the
single group entry (fields per the spec's data model and
`visit_group_rule`). -/
structure GroupRule where
  name : Identifier
  generic_params : Option GenericParams
  is_group_choice_alternate : Bool
  entry : GroupEntry

/-- A rule is a type rule or a group rule, as matched by `visit_rule`. -/
inductive Rule where
  | «Type» (rule : TypeRule)
  | Group (rule : GroupRule)

/-- The document: ordered rule sequence (`cddl.rules`). -/
structure CDDL where
  rules : List Rule

end ast

/-- The closed node-kind tag type wrapping every AST node kind that the
parent-tracking engine interns (one constructor per `CDDLType` variant used
by `parent_visitor.rs`). -/
inductive CDDLType where
  | CDDL (c : ast.CDDL)
  | Rule (r : ast.Rule)
  | TypeRule (r : ast.TypeRule)
  | GroupRule (r : ast.GroupRule)
  | Group (g : ast.Group)
  | GroupChoice (gc : ast.GroupChoice)
  | GroupEntry (ge : ast.GroupEntry)
  | Identifier (i : ast.Identifier)
  | «Type» (t : ast.«Type»)
  | TypeChoice (tc : ast.TypeChoice)
  | Type1 (t1 : ast.Type1)
  | Type2 (t2 : ast.Type2)
  | Operator (o : ast.Operator)
  | Occurrence (o : ast.Occurrence)
  | Occur (o : ast.Occur)
  | Value (v : ast.Value)
  | ValueMemberKeyEntry (e : ast.ValueMemberKeyEntry)
  | TypeGroupnameEntry (e : ast.TypeGroupnameEntry)
  | MemberKey (k : ast.MemberKey)
  | GenericParams (g : ast.GenericParams)
  | GenericParam (g : ast.GenericParam)
  | GenericArgs (g : ast.GenericArgs)
  | GenericArg (g : ast.GenericArg)
  | NonMemberKey (n : ast.NonMemberKey)

/-!
Structural equality on the AST, mirroring the derived `PartialEq` the engine
uses for `node.val == val`.  The recursive family is written as mutual
structural recursion so that it evaluates by kernel reduction.
-/

mutual
def beqType (a b : ast.«Type») : Bool :=
  match a, b with
  | .mk xs, .mk ys => beqTypeChoiceList xs ys
termination_by structural a

def beqTypeChoiceList (a b : List ast.TypeChoice) : Bool :=
  match a, b with
  | [], [] => true
  | x :: xs, y :: ys => beqTypeChoice x y && beqTypeChoiceList xs ys
  | _, _ => false
termination_by structural a

def beqTypeChoice (a b : ast.TypeChoice) : Bool :=
  match a, b with
  | .mk x, .mk y => beqType1 x y
termination_by structural a

def beqType1 (a b : ast.Type1) : Bool :=
  match a, b with
  | .mk x xo, .mk y yo => beqType2 x y && beqOptOperator xo yo
termination_by structural a

def beqOptOperator (a b : Option ast.Operator) : Bool :=
  match a, b with
  | none, none => true
  | some x, some y => beqOperator x y
  | _, _ => false
termination_by structural a

def beqOperator (a b : ast.Operator) : Bool :=
  match a, b with
  | .mk xo x, .mk yo y => xo == yo && beqType2 x y
termination_by structural a

def beqType2 (a b : ast.Type2) : Bool :=
  match a, b with
  | .IntValue x, .IntValue y => x == y
  | .UintValue x, .UintValue y => x == y
  | .FloatValue x, .FloatValue y => x == y
  | .TextValue x, .TextValue y => x == y
  | .UTF8ByteString x, .UTF8ByteString y => x == y
  | .B16ByteString x, .B16ByteString y => x == y
  | .B64ByteString x, .B64ByteString y => x == y
  | .Typename xi xg, .Typename yi yg => xi == yi && beqOptGenericArgs xg yg
  | .ParenthesizedType x, .ParenthesizedType y => beqType x y
  | .Map x, .Map y => beqGroup x y
  | .Array x, .Array y => beqGroup x y
  | .Unwrap xi, .Unwrap yi => xi == yi
  | .ChoiceFromInlineGroup x, .ChoiceFromInlineGroup y => beqGroup x y
  | .ChoiceFromGroup xi xg, .ChoiceFromGroup yi yg => xi == yi && beqOptGenericArgs xg yg
  | .TaggedData xt x, .TaggedData yt y => xt == yt && beqType x y
  | _, _ => false
termination_by structural a

def beqGroup (a b : ast.Group) : Bool :=
  match a, b with
  | .mk xs, .mk ys => beqGroupChoiceList xs ys
termination_by structural a

def beqGroupChoiceList (a b : List ast.GroupChoice) : Bool :=
  match a, b with
  | [], [] => true
  | x :: xs, y :: ys => beqGroupChoice x y && beqGroupChoiceList xs ys
  | _, _ => false
termination_by structural a

def beqGroupChoice (a b : ast.GroupChoice) : Bool :=
  match a, b with
  | .mk xs, .mk ys => beqGroupEntryPairList xs ys
termination_by structural a

def beqGroupEntryPairList (a b : List (ast.GroupEntry × Bool)) : Bool :=
  match a, b with
  | [], [] => true
  | (x, xc) :: xs, (y, yc) :: ys =>
    beqGroupEntry x y && xc == yc && beqGroupEntryPairList xs ys
  | _, _ => false
termination_by structural a

def beqGroupEntry (a b : ast.GroupEntry) : Bool :=
  match a, b with
  | .ValueMemberKey x, .ValueMemberKey y => beqValueMemberKeyEntry x y
  | .TypeGroupname x, .TypeGroupname y => beqTypeGroupnameEntry x y
  | .InlineGroup xo x, .InlineGroup yo y => xo == yo && beqGroup x y
  | _, _ => false
termination_by structural a

def beqValueMemberKeyEntry (a b : ast.ValueMemberKeyEntry) : Bool :=
  match a, b with
  | .mk xo xk x, .mk yo yk y =>
    xo == yo && beqOptMemberKey xk yk && beqType x y
termination_by structural a

def beqOptMemberKey (a b : Option ast.MemberKey) : Bool :=
  match a, b with
  | none, none => true
  | some x, some y => beqMemberKey x y
  | _, _ => false
termination_by structural a

def beqMemberKey (a b : ast.MemberKey) : Bool :=
  match a, b with
  | .Type1 x, .Type1 y => beqType1 x y
  | .Bareword xi, .Bareword yi => xi == yi
  | .Value xv, .Value yv => xv == yv
  | .NonMemberKey x, .NonMemberKey y => beqNonMemberKey x y
  | _, _ => false
termination_by structural a

def beqNonMemberKey (a b : ast.NonMemberKey) : Bool :=
  match a, b with
  | .Group x, .Group y => beqGroup x y
  | .«Type» x, .«Type» y => beqType x y
  | _, _ => false
termination_by structural a

def beqTypeGroupnameEntry (a b : ast.TypeGroupnameEntry) : Bool :=
  match a, b with
  | .mk xo xg xi, .mk yo yg yi =>
    xo == yo && beqOptGenericArgs xg yg && xi == yi
termination_by structural a

def beqOptGenericArgs (a b : Option ast.GenericArgs) : Bool :=
  match a, b with
  | none, none => true
  | some x, some y => beqGenericArgs x y
  | _, _ => false
termination_by structural a

def beqGenericArgs (a b : ast.GenericArgs) : Bool :=
  match a, b with
  | .mk xs, .mk ys => beqGenericArgList xs ys
termination_by structural a

def beqGenericArgList (a b : List ast.GenericArg) : Bool :=
  match a, b with
  | [], [] => true
  | x :: xs, y :: ys => beqGenericArg x y && beqGenericArgList xs ys
  | _, _ => false
termination_by structural a

def beqGenericArg (a b : ast.GenericArg) : Bool :=
  match a, b with
  | .mk x, .mk y => beqType1 x y
termination_by structural a
end

def beqTypeRule (a b : ast.TypeRule) : Bool :=
  a.name == b.name && a.generic_params == b.generic_params &&
    a.is_type_choice_alternate == b.is_type_choice_alternate &&
    beqType a.value b.value

def beqGroupRule (a b : ast.GroupRule) : Bool :=
  a.name == b.name && a.generic_params == b.generic_params &&
    a.is_group_choice_alternate == b.is_group_choice_alternate &&
    beqGroupEntry a.entry b.entry

def beqRule (a b : ast.Rule) : Bool :=
  match a, b with
  | .«Type» x, .«Type» y => beqTypeRule x y
  | .Group x, .Group y => beqGroupRule x y
  | _, _ => false

def beqRuleList (a b : List ast.Rule) : Bool :=
  match a, b with
  | [], [] => true
  | x :: xs, y :: ys => beqRule x y && beqRuleList xs ys
  | _, _ => false

def beqCDDL (a b : ast.CDDL) : Bool :=
  beqRuleList a.rules b.rules

/-- Structural equality on node-kind values: equal tag and structurally equal
wrapped nodes, mirroring the derived `PartialEq` on `CDDLType`. -/
def beqCDDLType (a b : CDDLType) : Bool :=
  match a, b with
  | .CDDL x, .CDDL y => beqCDDL x y
  | .Rule x, .Rule y => beqRule x y
  | .TypeRule x, .TypeRule y => beqTypeRule x y
  | .GroupRule x, .GroupRule y => beqGroupRule x y
  | .Group x, .Group y => beqGroup x y
  | .GroupChoice x, .GroupChoice y => beqGroupChoice x y
  | .GroupEntry x, .GroupEntry y => beqGroupEntry x y
  | .Identifier x, .Identifier y => x == y
  | .«Type» x, .«Type» y => beqType x y
  | .TypeChoice x, .TypeChoice y => beqTypeChoice x y
  | .Type1 x, .Type1 y => beqType1 x y
  | .Type2 x, .Type2 y => beqType2 x y
  | .Operator x, .Operator y => beqOperator x y
  | .Occurrence x, .Occurrence y => x == y
  | .Occur x, .Occur y => x == y
  | .Value x, .Value y => x == y
  | .ValueMemberKeyEntry x, .ValueMemberKeyEntry y => beqValueMemberKeyEntry x y
  | .TypeGroupnameEntry x, .TypeGroupnameEntry y => beqTypeGroupnameEntry x y
  | .MemberKey x, .MemberKey y => beqMemberKey x y
  | .GenericParams x, .GenericParams y => x == y
  | .GenericParam x, .GenericParam y => x == y
  | .GenericArgs x, .GenericArgs y => beqGenericArgs x y
  | .GenericArg x, .GenericArg y => beqGenericArg x y
  | .NonMemberKey x, .NonMemberKey y => beqNonMemberKey x y
  | _, _ => false

/-- Arena record: wrapped node-kind value, its own index, an optional parent
index and the child-index list. -/
structure Node where
  idx : Nat
  val : CDDLType
  parent : Option Nat
  children : List Nat

/-- Source `Node::new`: fresh record with no parent and no children. -/
def Node.new (idx : Nat) (val : CDDLType) : Node :=
  ⟨idx, val, none, []⟩

/-- The arena: a growable sequence of records. -/
structure ArenaTree where
  arena : List Node

/-- The scan inside `ArenaTree::node`: first record whose wrapped value is
structurally equal to the probe, returning its stored index. -/
def nodeFind : List Node → CDDLType → Option Nat
  | [], _ => none
  | n :: rest, v => if beqCDDLType n.val v then some n.idx else nodeFind rest v

/-- Source `ArenaTree::node`: return the first structurally equal record's index if
one exists, otherwise append a fresh record at the current length. -/
def ArenaTree.node (t : ArenaTree) (v : CDDLType) : Nat × ArenaTree :=
  match nodeFind t.arena v with
  | some i => (i, t)
  | none => (t.arena.length, ⟨t.arena ++ [Node.new t.arena.length v]⟩)

/-- Tree-build error taxonomy: `Error::Overwrite` is the retained error kind
(the code path raising it is commented out); `OutOfFuel` is the embedding's
termination artifact for the walk. -/
inductive VisitError where
  | Overwrite
  | OutOfFuel
  deriving DecidableEq

/-- Source `ParentVisitor::insert`: set the child's parent index only if unset (the
line returning `Error::Overwrite` is commented out in the source, so an
existing parent is silently kept), then unconditionally append the child to
the parent's child list.  Out-of-bounds indices are modelled as no-ops; the
claims only concern in-bounds indices. -/
def ArenaTree.insert (t : ArenaTree) (parent child : Nat) :
    Except VisitError ArenaTree :=
  let t1 : ArenaTree :=
    match t.arena.get? child with
    | some n =>
      match n.parent with
      | some _ => t
      | none => ⟨t.arena.set child { n with parent := some parent }⟩
    | none => t
  match t1.arena.get? parent with
  | some m => .ok ⟨t1.arena.set parent { m with children := m.children ++ [child] }⟩
  | none => .ok t1

/-- Default walk for identifier leaves (the visitor does not override
`visit_identifier`; the default walk of a leaf does nothing).  Modelled from
the spec: §4.2, unoverridden methods fall back to the default walk. -/
def visit_identifier (t : ArenaTree) (_i : ast.Identifier) :
    Except VisitError ArenaTree :=
  .ok t

/-- Default walk for value leaves (the visitor does not override
`visit_value`).  Modelled from the spec: §4.2. -/
def visit_value (t : ArenaTree) (_v : ast.Value) : Except VisitError ArenaTree :=
  .ok t

/-- Source `visit_occurrence`: intern the occurrence and link its `Occur` payload as
child. -/
def visit_occurrence (t : ArenaTree) (o : ast.Occurrence) :
    Except VisitError ArenaTree := do
  let (parent, t) := t.node (.Occurrence o)
  let (child, t) := t.node (.Occur o.occur)
  ArenaTree.insert t parent child

/-- The child-linking loop of `visit_inline_group_entry` (non-recursive). -/
def visit_inline_group_entry_loop (t : ArenaTree) (parent : Nat)
    (gcs : List ast.GroupChoice) : Except VisitError ArenaTree :=
  match gcs with
  | [] => .ok t
  | gc :: rest => do
    let (child, t) := t.node (.GroupChoice gc)
    let t ← ArenaTree.insert t parent child
    visit_inline_group_entry_loop t parent rest

/-- One traversal obligation of the walk: either a visit method of the
`Visitor` impl on `ParentVisitor` (one constructor per method), or one of its
`for` loops over a child list.  The whole mutually recursive walk is run by
the single fuel-indexed interpreter `visit_step`, so that the recursion is
structural in the fuel alone; the `visit_*` names of the source are defined
as wrappers below. -/
inductive VisitCmd where
  | cddl (c : ast.CDDL)
  | rule_list (parent : Nat) (rules : List ast.Rule)
  | rule (r : ast.Rule)
  | type_rule (tr : ast.TypeRule)
  | group_rule (gr : ast.GroupRule)
  | wgparams (params : ast.GenericParams)
  | gparam_list (params : List ast.GenericParam)
  | gparams (params : ast.GenericParams)
  | gparams_loop (parent : Nat) (params : List ast.GenericParam)
  | gparam (p : ast.GenericParam)
  | ty (t : ast.«Type»)
  | type_choice_list (parent : Nat) (tcs : List ast.TypeChoice)
  | type_choice (tc : ast.TypeChoice)
  | type1 (t1 : ast.Type1)
  | op (target : ast.Type1) (o : ast.Operator)
  | type2 (t2 : ast.Type2)
  | group (g : ast.Group)
  | group_choice_list (parent : Nat) (gcs : List ast.GroupChoice)
  | group_choice (gc : ast.GroupChoice)
  | group_entry_pair_list (parent : Nat) (ges : List (ast.GroupEntry × Bool))
  | group_entry (ge : ast.GroupEntry)
  | vmke (e : ast.ValueMemberKeyEntry)
  | tge (e : ast.TypeGroupnameEntry)
  | inline_group_entry (occur : Option ast.Occurrence) (g : ast.Group)
  | memberkey (k : ast.MemberKey)
  | gargs (args : ast.GenericArgs)
  | garg_list (parent : Nat) (args : List ast.GenericArg)
  | garg (a : ast.GenericArg)
  | nmk (n : ast.NonMemberKey)

/-- The walk interpreter: each case is the body of the corresponding
`Visitor` method of `ParentVisitor` (or of one of its `for` loops),
recursive calls going back through the interpreter. -/
def visit_step : Nat → ArenaTree → VisitCmd → Except VisitError ArenaTree
  | 0, _, _ => .error .OutOfFuel
  | fuel + 1, t, cmd =>
    match cmd with
    | .cddl c =>
      -- `visit_cddl`: intern the document, then for each rule link and descend.
      let (parent, t) := t.node (.CDDL c)
      visit_step fuel t (.rule_list parent c.rules)
    | .rule_list parent rules =>
      match rules with
      | [] => .ok t
      | rule :: rest => do
        let (child, t) := t.node (.Rule rule)
        let t ← ArenaTree.insert t parent child
        let t ← visit_step fuel t (.rule rule)
        visit_step fuel t (.rule_list parent rest)
    | .rule rule =>
      -- `visit_rule`: link the wrapped type/group rule and descend.
      let (parent, t) := t.node (.Rule rule)
      match rule with
      | .Group gr => do
        let (child, t) := t.node (.GroupRule gr)
        let t ← ArenaTree.insert t parent child
        visit_step fuel t (.group_rule gr)
      | .«Type» tr => do
        let (child, t) := t.node (.TypeRule tr)
        let t ← ArenaTree.insert t parent child
        visit_step fuel t (.type_rule tr)
    | .type_rule tr => do
      -- `visit_type_rule`: link name, optional generic parameters (walked via
      -- the default `walk_generic_params`), and the value type.
      let (parent, t) := t.node (.TypeRule tr)
      let (child, t) := t.node (.Identifier tr.name)
      let t ← ArenaTree.insert t parent child
      let t ←
        match tr.generic_params with
        | some params => do
          let (child, t) := t.node (.GenericParams params)
          let t ← ArenaTree.insert t parent child
          visit_step fuel t (.wgparams params)
        | none => Except.ok t
      let (child, t) := t.node (.«Type» tr.value)
      let t ← ArenaTree.insert t parent child
      visit_step fuel t (.ty tr.value)
    | .group_rule gr => do
      -- `visit_group_rule`: link name (then visit it), optional generic
      -- parameters, and the entry.
      let (parent, t) := t.node (.GroupRule gr)
      let (child, t) := t.node (.Identifier gr.name)
      let t ← ArenaTree.insert t parent child
      let t ← visit_identifier t gr.name
      let t ←
        match gr.generic_params with
        | some params => do
          let (child, t) := t.node (.GenericParams params)
          let t ← ArenaTree.insert t parent child
          visit_step fuel t (.wgparams params)
        | none => Except.ok t
      let (child, t) := t.node (.GroupEntry gr.entry)
      let t ← ArenaTree.insert t parent child
      visit_step fuel t (.group_entry gr.entry)
    | .wgparams params =>
      -- default `walk_generic_params`: visit each parameter in order
      -- (modelled from the spec: §4.2 default walk of the visitor module).
      visit_step fuel t (.gparam_list params.params)
    | .gparam_list params =>
      match params with
      | [] => .ok t
      | param :: rest => do
        let t ← visit_step fuel t (.gparam param)
        visit_step fuel t (.gparam_list rest)
    | .gparams params =>
      -- `visit_generic_params` (the override): intern the list node and link
      -- each parameter before descending.
      let (parent, t) := t.node (.GenericParams params)
      visit_step fuel t (.gparams_loop parent params.params)
    | .gparams_loop parent params =>
      match params with
      | [] => .ok t
      | param :: rest => do
        let (child, t) := t.node (.GenericParam param)
        let t ← ArenaTree.insert t parent child
        let t ← visit_step fuel t (.gparam param)
        visit_step fuel t (.gparams_loop parent rest)
    | .gparam param => do
      -- `visit_generic_param`: link the parameter identifier.
      let (parent, t) := t.node (.GenericParam param)
      let (child, t) := t.node (.Identifier param.param)
      let t ← ArenaTree.insert t parent child
      visit_identifier t param.param
    | .ty ty =>
      -- `visit_type`: link each type choice in order and descend.
      let (parent, t) := t.node (.«Type» ty)
      match ty with
      | .mk tcs => visit_step fuel t (.type_choice_list parent tcs)
    | .type_choice_list parent tcs =>
      match tcs with
      | [] => .ok t
      | tc :: rest => do
        let (child, t) := t.node (.TypeChoice tc)
        let t ← ArenaTree.insert t parent child
        let t ← visit_step fuel t (.type_choice tc)
        visit_step fuel t (.type_choice_list parent rest)
    | .type_choice tc => do
      -- `visit_type_choice`: link the wrapped `Type1` and descend.
      let (parent, t) := t.node (.TypeChoice tc)
      match tc with
      | .mk t1 => do
        let (child, t) := t.node (.Type1 t1)
        let t ← ArenaTree.insert t parent child
        visit_step fuel t (.type1 t1)
    | .type1 t1 => do
      -- `visit_type1`: link the optional operator first, then the `Type2`.
      let (parent, t) := t.node (.Type1 t1)
      match t1 with
      | .mk t2 o => do
        let t ←
          match o with
          | some o => do
            let (child, t) := t.node (.Operator o)
            let t ← ArenaTree.insert t parent child
            visit_step fuel t (.op t1 o)
          | none => Except.ok t
        let (child, t) := t.node (.Type2 t2)
        let t ← ArenaTree.insert t parent child
        visit_step fuel t (.type2 t2)
    | .op _target o => do
      -- `visit_operator`: link the operand `Type2`, then run the default
      -- `walk_operator`, which visits the operand (modelled from the spec
      -- §4.2).
      let (parent, t) := t.node (.Operator o)
      match o with
      | .mk _tag t2 => do
        let (child, t) := t.node (.Type2 t2)
        let t ← ArenaTree.insert t parent child
        visit_step fuel t (.type2 t2)
    | .type2 t2 =>
      -- `visit_type2`: dispatch on the variant, linking the extracted
      -- literal value / identifier / nested type / group as the source does.
      let (parent, t) := t.node (.Type2 t2)
      match t2 with
      | .IntValue value => do
        let (child, t) := t.node (.Value (.INT value))
        ArenaTree.insert t parent child
      | .UintValue value => do
        let (child, t) := t.node (.Value (.UINT value))
        ArenaTree.insert t parent child
      | .FloatValue value => do
        let (child, t) := t.node (.Value (.FLOAT value))
        ArenaTree.insert t parent child
      | .TextValue value => do
        let (child, t) := t.node (.Value (.TEXT value))
        ArenaTree.insert t parent child
      | .UTF8ByteString value => do
        let (child, t) := t.node (.Value (.BYTE (.UTF8 value)))
        ArenaTree.insert t parent child
      | .B16ByteString value => do
        let (child, t) := t.node (.Value (.BYTE (.B16 value)))
        ArenaTree.insert t parent child
      | .B64ByteString value => do
        let (child, t) := t.node (.Value (.BYTE (.B64 value)))
        ArenaTree.insert t parent child
      | .Typename ident generic_args => do
        let (child, t) := t.node (.Identifier ident)
        let t ← ArenaTree.insert t parent child
        match generic_args with
        | some ga => do
          let (child, t) := t.node (.GenericArgs ga)
          let t ← ArenaTree.insert t parent child
          visit_step fuel t (.gargs ga)
        | none => Except.ok t
      | .ParenthesizedType pt => do
        let (child, t) := t.node (.«Type» pt)
        let t ← ArenaTree.insert t parent child
        visit_step fuel t (.ty pt)
      | .Map group => do
        let (child, t) := t.node (.Group group)
        let t ← ArenaTree.insert t parent child
        visit_step fuel t (.group group)
      | .Array group => do
        let (child, t) := t.node (.Group group)
        let t ← ArenaTree.insert t parent child
        visit_step fuel t (.group group)
      | .Unwrap ident => do
        let (child, t) := t.node (.Identifier ident)
        let t ← ArenaTree.insert t parent child
        visit_identifier t ident
      | .ChoiceFromInlineGroup group => do
        let (child, t) := t.node (.Group group)
        let t ← ArenaTree.insert t parent child
        visit_step fuel t (.group group)
      | .ChoiceFromGroup ident generic_args => do
        let (child, t) := t.node (.Identifier ident)
        let t ← ArenaTree.insert t parent child
        match generic_args with
        | some ga => do
          let (child, t) := t.node (.GenericArgs ga)
          let t ← ArenaTree.insert t parent child
          visit_step fuel t (.gargs ga)
        | none => Except.ok t
      | .TaggedData _tag ty => do
        let (child, t) := t.node (.«Type» ty)
        let t ← ArenaTree.insert t parent child
        visit_step fuel t (.ty ty)
    | .group g =>
      -- `visit_group`: link each group choice in order and descend.
      let (parent, t) := t.node (.Group g)
      match g with
      | .mk gcs => visit_step fuel t (.group_choice_list parent gcs)
    | .group_choice_list parent gcs =>
      match gcs with
      | [] => .ok t
      | gc :: rest => do
        let (child, t) := t.node (.GroupChoice gc)
        let t ← ArenaTree.insert t parent child
        let t ← visit_step fuel t (.group_choice gc)
        visit_step fuel t (.group_choice_list parent rest)
    | .group_choice gc =>
      -- `visit_group_choice`: link each entry (trailing-comma flag ignored)
      -- in order and descend.
      let (parent, t) := t.node (.GroupChoice gc)
      match gc with
      | .mk ges => visit_step fuel t (.group_entry_pair_list parent ges)
    | .group_entry_pair_list parent ges =>
      match ges with
      | [] => .ok t
      | (ge, _) :: rest => do
        let (child, t) := t.node (.GroupEntry ge)
        let t ← ArenaTree.insert t parent child
        let t ← visit_step fuel t (.group_entry ge)
        visit_step fuel t (.group_entry_pair_list parent rest)
    | .group_entry entry =>
      -- `visit_group_entry`: dispatch on the entry variant.
      let (parent, t) := t.node (.GroupEntry entry)
      match entry with
      | .ValueMemberKey ge => do
        let (child, t) := t.node (.ValueMemberKeyEntry ge)
        let t ← ArenaTree.insert t parent child
        visit_step fuel t (.vmke ge)
      | .TypeGroupname ge => do
        let (child, t) := t.node (.TypeGroupnameEntry ge)
        let t ← ArenaTree.insert t parent child
        visit_step fuel t (.tge ge)
      | .InlineGroup occur group => do
        let t ←
          match occur with
          | some o => do
            let (child, t) := t.node (.Occurrence o)
            let t ← ArenaTree.insert t parent child
            visit_occurrence t o
          | none => Except.ok t
        let (child, t) := t.node (.Group group)
        let t ← ArenaTree.insert t parent child
        visit_step fuel t (.group group)
    | .vmke entry => do
      -- `visit_value_member_key_entry`: optional occurrence, optional member
      -- key, then the entry type.
      let (parent, t) := t.node (.ValueMemberKeyEntry entry)
      match entry with
      | .mk occur member_key entry_type => do
        let t ←
          match occur with
          | some o => do
            let (child, t) := t.node (.Occurrence o)
            let t ← ArenaTree.insert t parent child
            visit_occurrence t o
          | none => Except.ok t
        let t ←
          match member_key with
          | some k => do
            let (child, t) := t.node (.MemberKey k)
            let t ← ArenaTree.insert t parent child
            visit_step fuel t (.memberkey k)
          | none => Except.ok t
        let (child, t) := t.node (.«Type» entry_type)
        let t ← ArenaTree.insert t parent child
        visit_step fuel t (.ty entry_type)
    | .tge entry => do
      -- `visit_type_groupname_entry`: optional occurrence, optional generic
      -- args, then the name.
      let (parent, t) := t.node (.TypeGroupnameEntry entry)
      match entry with
      | .mk occur generic_args name => do
        let t ←
          match occur with
          | some o => do
            let (child, t) := t.node (.Occurrence o)
            let t ← ArenaTree.insert t parent child
            visit_occurrence t o
          | none => Except.ok t
        let t ←
          match generic_args with
          | some ga => do
            let (child, t) := t.node (.GenericArgs ga)
            let t ← ArenaTree.insert t parent child
            visit_step fuel t (.gargs ga)
          | none => Except.ok t
        let (child, t) := t.node (.Identifier name)
        let t ← ArenaTree.insert t parent child
        visit_identifier t name
    | .inline_group_entry occur g => do
      -- `visit_inline_group_entry` (an override present in the source but
      -- not reached from `visit_cddl`): link each group choice, then descend
      -- into the group.
      let (parent, t) := t.node (.Group g)
      let t ←
        match occur with
        | some o => visit_occurrence t o
        | none => Except.ok t
      let t ←
        match g with
        | .mk gcs => visit_inline_group_entry_loop t parent gcs
      visit_step fuel t (.group g)
    | .memberkey k => do
      -- `visit_memberkey`: dispatch on the member-key variant.
      let (parent, t) := t.node (.MemberKey k)
      match k with
      | .Type1 t1 => do
        let (child, t) := t.node (.Type1 t1)
        let t ← ArenaTree.insert t parent child
        visit_step fuel t (.type1 t1)
      | .Bareword ident => do
        let (child, t) := t.node (.Identifier ident)
        let t ← ArenaTree.insert t parent child
        visit_identifier t ident
      | .Value value => do
        let (child, t) := t.node (.Value value)
        let t ← ArenaTree.insert t parent child
        visit_value t value
      | .NonMemberKey non_member_key => do
        let (child, t) := t.node (.NonMemberKey non_member_key)
        let t ← ArenaTree.insert t parent child
        visit_step fuel t (.nmk non_member_key)
    | .gargs args =>
      -- `visit_generic_args`: link each argument in order and descend.
      let (parent, t) := t.node (.GenericArgs args)
      match args with
      | .mk l => visit_step fuel t (.garg_list parent l)
    | .garg_list parent args =>
      match args with
      | [] => .ok t
      | arg :: rest => do
        let (child, t) := t.node (.GenericArg arg)
        let t ← ArenaTree.insert t parent child
        let t ← visit_step fuel t (.garg arg)
        visit_step fuel t (.garg_list parent rest)
    | .garg arg => do
      -- `visit_generic_arg`: link the wrapped `Type1` and descend.
      let (parent, t) := t.node (.GenericArg arg)
      match arg with
      | .mk t1 => do
        let (child, t) := t.node (.Type1 t1)
        let t ← ArenaTree.insert t parent child
        visit_step fuel t (.type1 t1)
    | .nmk nkey => do
      -- `visit_nonmemberkey`: dispatch on group/type.
      let (parent, t) := t.node (.NonMemberKey nkey)
      match nkey with
      | .Group group => do
        let (child, t) := t.node (.Group group)
        let t ← ArenaTree.insert t parent child
        visit_step fuel t (.group group)
      | .«Type» ty => do
        let (child, t) := t.node (.«Type» ty)
        let t ← ArenaTree.insert t parent child
        visit_step fuel t (.ty ty)

/-- Source `visit_cddl` of the `Visitor` impl. -/
def visit_cddl (fuel : Nat) (t : ArenaTree) (c : ast.CDDL) :
    Except VisitError ArenaTree :=
  visit_step fuel t (.cddl c)

/-- Source `visit_rule` of the `Visitor` impl. -/
def visit_rule (fuel : Nat) (t : ArenaTree) (r : ast.Rule) :
    Except VisitError ArenaTree :=
  visit_step fuel t (.rule r)

/-- Source `visit_type_rule` of the `Visitor` impl. -/
def visit_type_rule (fuel : Nat) (t : ArenaTree) (tr : ast.TypeRule) :
    Except VisitError ArenaTree :=
  visit_step fuel t (.type_rule tr)

/-- Source `visit_group_rule` of the `Visitor` impl. -/
def visit_group_rule (fuel : Nat) (t : ArenaTree) (gr : ast.GroupRule) :
    Except VisitError ArenaTree :=
  visit_step fuel t (.group_rule gr)

/-- Source `visit_type` of the `Visitor` impl. -/
def visit_type (fuel : Nat) (t : ArenaTree) (ty : ast.«Type») :
    Except VisitError ArenaTree :=
  visit_step fuel t (.ty ty)

/-- Source `visit_type_choice` of the `Visitor` impl. -/
def visit_type_choice (fuel : Nat) (t : ArenaTree) (tc : ast.TypeChoice) :
    Except VisitError ArenaTree :=
  visit_step fuel t (.type_choice tc)

/-- Source `visit_type1` of the `Visitor` impl. -/
def visit_type1 (fuel : Nat) (t : ArenaTree) (t1 : ast.Type1) :
    Except VisitError ArenaTree :=
  visit_step fuel t (.type1 t1)

/-- Source `visit_operator` of the `Visitor` impl. -/
def visit_operator (fuel : Nat) (t : ArenaTree) (target : ast.Type1)
    (o : ast.Operator) : Except VisitError ArenaTree :=
  visit_step fuel t (.op target o)

/-- Source `visit_type2` of the `Visitor` impl. -/
def visit_type2 (fuel : Nat) (t : ArenaTree) (t2 : ast.Type2) :
    Except VisitError ArenaTree :=
  visit_step fuel t (.type2 t2)

/-- Source `visit_group` of the `Visitor` impl. -/
def visit_group (fuel : Nat) (t : ArenaTree) (g : ast.Group) :
    Except VisitError ArenaTree :=
  visit_step fuel t (.group g)

/-- Source `visit_group_choice` of the `Visitor` impl. -/
def visit_group_choice (fuel : Nat) (t : ArenaTree) (gc : ast.GroupChoice) :
    Except VisitError ArenaTree :=
  visit_step fuel t (.group_choice gc)

/-- Source `visit_group_entry` of the `Visitor` impl. -/
def visit_group_entry (fuel : Nat) (t : ArenaTree) (ge : ast.GroupEntry) :
    Except VisitError ArenaTree :=
  visit_step fuel t (.group_entry ge)

/-- Source `visit_value_member_key_entry` of the `Visitor` impl. -/
def visit_value_member_key_entry (fuel : Nat) (t : ArenaTree)
    (e : ast.ValueMemberKeyEntry) : Except VisitError ArenaTree :=
  visit_step fuel t (.vmke e)

/-- Source `visit_type_groupname_entry` of the `Visitor` impl. -/
def visit_type_groupname_entry (fuel : Nat) (t : ArenaTree)
    (e : ast.TypeGroupnameEntry) : Except VisitError ArenaTree :=
  visit_step fuel t (.tge e)

/-- Source `visit_inline_group_entry` of the `Visitor` impl. -/
def visit_inline_group_entry (fuel : Nat) (t : ArenaTree)
    (occur : Option ast.Occurrence) (g : ast.Group) :
    Except VisitError ArenaTree :=
  visit_step fuel t (.inline_group_entry occur g)

/-- Source `visit_memberkey` of the `Visitor` impl. -/
def visit_memberkey (fuel : Nat) (t : ArenaTree) (k : ast.MemberKey) :
    Except VisitError ArenaTree :=
  visit_step fuel t (.memberkey k)

/-- Source `visit_generic_args` of the `Visitor` impl. -/
def visit_generic_args (fuel : Nat) (t : ArenaTree) (args : ast.GenericArgs) :
    Except VisitError ArenaTree :=
  visit_step fuel t (.gargs args)

/-- Source `visit_generic_arg` of the `Visitor` impl. -/
def visit_generic_arg (fuel : Nat) (t : ArenaTree) (a : ast.GenericArg) :
    Except VisitError ArenaTree :=
  visit_step fuel t (.garg a)

/-- Source `visit_generic_params` of the `Visitor` impl. -/
def visit_generic_params (fuel : Nat) (t : ArenaTree) (params : ast.GenericParams) :
    Except VisitError ArenaTree :=
  visit_step fuel t (.gparams params)

/-- Source `visit_generic_param` of the `Visitor` impl. -/
def visit_generic_param (fuel : Nat) (t : ArenaTree) (p : ast.GenericParam) :
    Except VisitError ArenaTree :=
  visit_step fuel t (.gparam p)

/-- Default `walk_generic_params` of the external visitor module (modelled
from the spec: §4.2). -/
def walk_generic_params (fuel : Nat) (t : ArenaTree) (params : ast.GenericParams) :
    Except VisitError ArenaTree :=
  visit_step fuel t (.wgparams params)

/-- Source `visit_nonmemberkey` of the `Visitor` impl. -/
def visit_nonmemberkey (fuel : Nat) (t : ArenaTree) (n : ast.NonMemberKey) :
    Except VisitError ArenaTree :=
  visit_step fuel t (.nmk n)

/-- The parent-tracking engine: its arena. -/
structure ParentVisitor where
  arena_tree : ArenaTree

/-- Source `ParentVisitor::new`: start from an empty arena and run the full walk
over the document (the walk's recursion is fuel-indexed in this embedding). -/
def ParentVisitor.new (fuel : Nat) (cddl : ast.CDDL) :
    Except VisitError ParentVisitor := do
  let t ← visit_cddl fuel ⟨[]⟩ cddl
  .ok ⟨t⟩

/-- The scan inside `CDDLType::parent`: first record whose wrapped value is
structurally equal to the probe AND whose parent index is set and resolves;
records failing either condition are skipped, exactly as in the source. -/
def parent_scan (full : List Node) : List Node → CDDLType → Option CDDLType
  | [], _ => none
  | n :: rest, v =>
    if beqCDDLType v n.val then
      match n.parent with
      | some pidx =>
        match full.get? pidx with
        | some pn => some pn.val
        | none => parent_scan full rest v
      | none => parent_scan full rest v
    else parent_scan full rest v

/-- Source `CDDLType::parent`: positional arena lookup of the recorded parent. -/
def CDDLType.parent (v : CDDLType) (visitor : ParentVisitor) : Option CDDLType :=
  parent_scan visitor.arena_tree.arena visitor.arena_tree.arena v

/-- Typed parent query `impl Parent<CDDL> for Rule`. -/
def ast.Rule.parent (r : ast.Rule) (pv : ParentVisitor) : Option ast.CDDL :=
  match CDDLType.parent (.Rule r) pv with
  | some (.CDDL c) => some c
  | _ => none

/-- Typed parent query `impl Parent<Rule> for TypeRule`. -/
def ast.TypeRule.parent (tr : ast.TypeRule) (pv : ParentVisitor) :
    Option ast.Rule :=
  match CDDLType.parent (.TypeRule tr) pv with
  | some (.Rule r) => some r
  | _ => none

/-- Typed parent query `impl Parent<Rule> for GroupRule`. -/
def ast.GroupRule.parent (gr : ast.GroupRule) (pv : ParentVisitor) :
    Option ast.Rule :=
  match CDDLType.parent (.GroupRule gr) pv with
  | some (.Rule r) => some r
  | _ => none

/-- Typed parent query `impl Parent<TypeRule> for Type`. -/
def ast.Type.parent (ty : ast.«Type») (pv : ParentVisitor) :
    Option ast.TypeRule :=
  match CDDLType.parent (.«Type» ty) pv with
  | some (.TypeRule tr) => some tr
  | _ => none

/-- Typed parent query `impl Parent<Type> for TypeChoice`. -/
def ast.TypeChoice.parent (tc : ast.TypeChoice) (pv : ParentVisitor) :
    Option ast.«Type» :=
  match CDDLType.parent (.TypeChoice tc) pv with
  | some (.«Type» ty) => some ty
  | _ => none

/-- Typed parent query `impl Parent<TypeChoice> for Type1`. -/
def ast.Type1.parent (t1 : ast.Type1) (pv : ParentVisitor) :
    Option ast.TypeChoice :=
  match CDDLType.parent (.Type1 t1) pv with
  | some (.TypeChoice tc) => some tc
  | _ => none

/-- Typed parent query `impl Parent<Type1> for Type2`. -/
def ast.Type2.parent (t2 : ast.Type2) (pv : ParentVisitor) :
    Option ast.Type1 :=
  match CDDLType.parent (.Type2 t2) pv with
  | some (.Type1 t1) => some t1
  | _ => none

/-- Typed parent query `impl Parent<Type2> for Value` (the wrapped token
value, `CDDLType::from(value)`). -/
def ast.Value.parent (v : ast.Value) (pv : ParentVisitor) :
    Option ast.Type2 :=
  match CDDLType.parent (.Value v) pv with
  | some (.Type2 t2) => some t2
  | _ => none

/-- Typed parent query `impl Parent<GroupRule> for GroupEntry`. -/
def ast.GroupEntry.parent (ge : ast.GroupEntry) (pv : ParentVisitor) :
    Option ast.GroupRule :=
  match CDDLType.parent (.GroupEntry ge) pv with
  | some (.GroupRule gr) => some gr
  | _ => none

/-!
The document parsed from `a = "myrule"`: one type rule binding `a` to the
single-choice type whose `Type1` is the bare text literal `"myrule"`.
-/

def myruleType2 : ast.Type2 := .TextValue "myrule"

def myruleType1 : ast.Type1 := .mk myruleType2 none

def myruleTypeChoice : ast.TypeChoice := .mk myruleType1

def myruleType : ast.«Type» := .mk [myruleTypeChoice]

def myruleTypeRule : ast.TypeRule := ⟨⟨"a"⟩, none, false, myruleType⟩

def myruleRule : ast.Rule := .«Type» myruleTypeRule

def myruleCDDL : ast.CDDL := ⟨[myruleRule]⟩

/-- The parent index built over the `a = "myrule"` document (fuel 32 amply
covers the walk's depth). -/
def myrulePV : ParentVisitor :=
  (ParentVisitor.new 32 myruleCDDL).toOption.getD ⟨⟨[]⟩⟩

/-!
Helper lemmas: positional list access, the `nodeFind` scan, and reflexivity
of the structural equality family.
-/

theorem list_get?_lt {α : Type} : ∀ (l : List α) (i : Nat), i < l.length →
    ∃ x, l.get? i = some x
  | [], i, h => absurd h (Nat.not_lt_zero i)
  | a :: _, 0, _ => ⟨a, rfl⟩
  | _ :: l, i + 1, h => list_get?_lt l i (Nat.lt_of_succ_lt_succ h)

theorem list_get?_set_self {α : Type} : ∀ (l : List α) (i : Nat) (x : α),
    i < l.length → (l.set i x).get? i = some x
  | [], i, _, h => absurd h (Nat.not_lt_zero i)
  | _ :: _, 0, _, _ => rfl
  | _ :: l, i + 1, x, h => list_get?_set_self l i x (Nat.lt_of_succ_lt_succ h)

theorem list_get?_set_ne {α : Type} : ∀ (l : List α) (i j : Nat) (x : α),
    i ≠ j → (l.set i x).get? j = l.get? j
  | [], _, _, _, _ => rfl
  | _ :: _, 0, 0, _, h => absurd rfl h
  | _ :: _, 0, _ + 1, _, _ => rfl
  | _ :: _, _ + 1, 0, _, _ => rfl
  | _ :: l, i + 1, j + 1, x, h =>
    list_get?_set_ne l i j x (fun e => h (congrArg Nat.succ e))

theorem list_get?_append_left {α : Type} : ∀ (l₁ l₂ : List α) (i : Nat),
    i < l₁.length → (l₁ ++ l₂).get? i = l₁.get? i
  | [], _, i, h => absurd h (Nat.not_lt_zero i)
  | _ :: _, _, 0, _ => rfl
  | _ :: l₁, l₂, i + 1, h => list_get?_append_left l₁ l₂ i (Nat.lt_of_succ_lt_succ h)

theorem nodeFind_of_first (v : CDDLType) : ∀ (l : List Node) (i : Nat) (n : Node),
    l.get? i = some n → beqCDDLType n.val v = true →
    (∀ j m, j < i → l.get? j = some m → beqCDDLType m.val v = false) →
    nodeFind l v = some n.idx
  | [], i, _, h, _, _ => by cases i <;> exact absurd h (by simp [List.get?])
  | a :: l, 0, n, h, hb, _ => by
    injection h with h
    subst h
    simp only [nodeFind, hb, if_true]
  | a :: l, i + 1, n, h, hb, hfirst => by
    have ha : beqCDDLType a.val v = false := hfirst 0 a (Nat.succ_pos i) rfl
    simp only [nodeFind, ha, Bool.false_eq_true, if_false]
    exact nodeFind_of_first v l i n h hb
      (fun j m hj hm => hfirst (j + 1) m (Nat.succ_lt_succ hj) hm)

theorem nodeFind_of_none (v : CDDLType) : ∀ (l : List Node),
    (∀ j m, l.get? j = some m → beqCDDLType m.val v = false) →
    nodeFind l v = none
  | [], _ => rfl
  | a :: l, h => by
    have ha : beqCDDLType a.val v = false := h 0 a rfl
    simp only [nodeFind, ha, Bool.false_eq_true, if_false]
    exact nodeFind_of_none v l (fun j m hm => h (j + 1) m hm)

theorem nodeFind_some_mem (v : CDDLType) : ∀ (l : List Node) (i : Nat),
    nodeFind l v = some i → ∃ n, n ∈ l ∧ beqCDDLType n.val v = true
  | [], _, h => by simp [nodeFind] at h
  | a :: l, i, h => by
    by_cases hb : beqCDDLType a.val v = true
    · exact ⟨a, List.mem_cons_self a l, hb⟩
    · simp only [nodeFind, hb, if_false] at h
      obtain ⟨n, hn, hbn⟩ := nodeFind_some_mem v l i h
      exact ⟨n, List.mem_cons_of_mem a hn, hbn⟩

theorem nodeFind_append (v : CDDLType) : ∀ (l₁ l₂ : List Node),
    nodeFind (l₁ ++ l₂) v =
      match nodeFind l₁ v with
      | some i => some i
      | none => nodeFind l₂ v
  | [], l₂ => rfl
  | a :: l₁, l₂ => by
    by_cases hb : beqCDDLType a.val v = true
    · simp only [List.cons_append, nodeFind, hb, if_true]
    · simp only [List.cons_append, nodeFind, hb, if_false]
      exact nodeFind_append v l₁ l₂

theorem nodeFind_congr (v : CDDLType) : ∀ (l₁ l₂ : List Node),
    ((l₁.map fun n => (n.idx, n.val)) <+: (l₂.map fun n => (n.idx, n.val))) →
    (∃ n, n ∈ l₁ ∧ beqCDDLType n.val v = true) →
    nodeFind l₂ v = nodeFind l₁ v := by
  intro l₁
  induction l₁ with
  | nil =>
    intro l₂ _ hex
    obtain ⟨n, hn, _⟩ := hex
    exact absurd hn (List.not_mem_nil n)
  | cons a l₁ ih =>
    intro l₂ hpre hex
    obtain ⟨tl, htl⟩ := hpre
    cases l₂ with
    | nil => simp at htl
    | cons b l₂ =>
      simp only [List.map, List.cons_append, List.cons.injEq, Prod.mk.injEq] at htl
      obtain ⟨⟨hidx, hval⟩, htail⟩ := htl
      by_cases hb : beqCDDLType a.val v = true
      · simp only [nodeFind, ← hval, ← hidx, hb, if_true]
      · simp only [nodeFind, ← hval, ← hidx, hb, if_false]
        refine ih l₂ ⟨tl, htail⟩ ?_
        obtain ⟨n, hn, hbn⟩ := hex
        cases List.mem_cons.1 hn with
        | inl he => exact absurd (he ▸ hbn) (by simpa using hb)
        | inr hm => exact ⟨n, hm, hbn⟩

/-!
Claims C2, C3, C4: the arena primitives and the determinism of the build.
-/

/-- C2 — `ArenaTree::node` is find-first-or-append: (1) if a first
structurally equal record exists it returns that record's index and leaves
the arena unchanged; (2) if no record matches it appends a fresh record at
the current length and returns that length; (3) consequently, interning a
self-equal value (every value except the NaN-like ones whose `PartialEq` is
irreflexive) again in any later arena that preserves the (index, value)
prefix yields the same slot. -/
theorem arena_node_spec (t : ArenaTree) (v : CDDLType) :
    (∀ i n, t.arena.get? i = some n → beqCDDLType n.val v = true →
      (∀ j m, j < i → t.arena.get? j = some m → beqCDDLType m.val v = false) →
      ArenaTree.node t v = (n.idx, t)) ∧
    ((∀ j m, t.arena.get? j = some m → beqCDDLType m.val v = false) →
      ArenaTree.node t v =
        (t.arena.length, ⟨t.arena ++ [Node.new t.arena.length v]⟩)) ∧
    (beqCDDLType v v = true → ∀ t₂ : ArenaTree,
      (((ArenaTree.node t v).2.arena.map fun n => (n.idx, n.val)) <+:
        (t₂.arena.map fun n => (n.idx, n.val))) →
      (ArenaTree.node t₂ v).1 = (ArenaTree.node t v).1) := by
  refine ⟨?_, ?_, ?_⟩
  · intro i n hn hb hfirst
    rw [ArenaTree.node, nodeFind_of_first v t.arena i n hn hb hfirst]
  · intro hnone
    rw [ArenaTree.node, nodeFind_of_none v t.arena hnone]
  · intro hrefl t₂ hpre
    cases hnf : nodeFind t.arena v with
    | some i =>
      have hnode : ArenaTree.node t v = (i, t) := by rw [ArenaTree.node, hnf]
      rw [hnode] at hpre ⊢
      have hex := nodeFind_some_mem v t.arena i hnf
      have : nodeFind t₂.arena v = nodeFind t.arena v :=
        nodeFind_congr v t.arena t₂.arena hpre hex
      rw [ArenaTree.node, this, hnf]
    | none =>
      have hnode : ArenaTree.node t v =
          (t.arena.length, ⟨t.arena ++ [Node.new t.arena.length v]⟩) := by
        rw [ArenaTree.node, hnf]
      rw [hnode] at hpre ⊢
      have hex : ∃ n, n ∈ t.arena ++ [Node.new t.arena.length v] ∧
          beqCDDLType n.val v = true :=
        ⟨Node.new t.arena.length v, List.mem_append_right _ (List.mem_singleton.2 rfl), hrefl⟩
      have hcongr : nodeFind t₂.arena v =
          nodeFind (t.arena ++ [Node.new t.arena.length v]) v :=
        nodeFind_congr v _ t₂.arena hpre hex
      have happ : nodeFind (t.arena ++ [Node.new t.arena.length v]) v =
          some t.arena.length := by
        rw [nodeFind_append v t.arena [Node.new t.arena.length v], hnf]
        simp only [nodeFind, hrefl, if_true, Node.new]
      rw [ArenaTree.node, hcongr, happ]

/-- C2 witness: interning a fresh value into the empty arena appends slot 0;
re-interning it finds slot 0 again; and the stability part applied to the
grown arena returns the same slot. -/
theorem arena_node_spec_witness :
    ArenaTree.node ⟨[]⟩ (.Value (.INT 1)) =
      (0, ⟨[Node.new 0 (.Value (.INT 1))]⟩) ∧
    ArenaTree.node ⟨[Node.new 0 (.Value (.INT 1))]⟩ (.Value (.INT 1)) =
      ((Node.new 0 (.Value (.INT 1))).idx, ⟨[Node.new 0 (.Value (.INT 1))]⟩) ∧
    (ArenaTree.node ⟨[Node.new 0 (.Value (.INT 1))]⟩ (.Value (.INT 1))).1 =
      (ArenaTree.node ⟨[]⟩ (.Value (.INT 1))).1 := by
  refine ⟨?_, ?_, ?_⟩
  · exact (arena_node_spec ⟨[]⟩ (.Value (.INT 1))).2.1
      (fun j m hm => by cases j <;> exact Option.noConfusion hm)
  · exact (arena_node_spec ⟨[Node.new 0 (.Value (.INT 1))]⟩ (.Value (.INT 1))).1
      0 (Node.new 0 (.Value (.INT 1))) rfl rfl
      (fun j m hj _ => absurd hj (Nat.not_lt_zero j))
  · exact (arena_node_spec ⟨[]⟩ (.Value (.INT 1))).2.2 rfl
      ⟨[Node.new 0 (.Value (.INT 1))]⟩ (List.prefix_refl _)

/-- C3 — `ParentVisitor::insert` on in-bounds indices always succeeds (the
`Overwrite` return is commented out in the source): it keeps the arena
length, sets the child's parent index only if currently unset (first parent
wins), and unconditionally appends the child to the parent's child list. -/
theorem parent_visitor_insert_spec (t : ArenaTree) (p c : Nat)
    (hp : p < t.arena.length) (hc : c < t.arena.length) :
    ∃ t₂, ArenaTree.insert t p c = .ok t₂ ∧
      t₂.arena.length = t.arena.length ∧
      (∀ n, t.arena.get? c = some n →
        (t₂.arena.get? c).map Node.parent = some (some (n.parent.getD p))) ∧
      (∀ m, t.arena.get? p = some m →
        (t₂.arena.get? p).map Node.children = some (m.children ++ [c])) := by
  obtain ⟨n, hn⟩ := list_get?_lt t.arena c hc
  obtain ⟨m, hm⟩ := list_get?_lt t.arena p hp
  cases hpar : n.parent with
  | some q =>
    refine ⟨⟨t.arena.set p { m with children := m.children ++ [c] }⟩,
      ?_, by simp, ?_, ?_⟩
    · simp only [ArenaTree.insert, hn, hpar, hm]
    · intro n2 hn2
      rw [hn] at hn2
      injection hn2 with hn2
      subst hn2
      by_cases hpc : p = c
      · subst hpc
        have hmn : m = n := Option.some.inj (hm.symm.trans hn)
        subst hmn
        rw [list_get?_set_self t.arena p _ hp]
        simp [hpar]
      · rw [list_get?_set_ne t.arena p c _ hpc, hn]
        simp [hpar]
    · intro m2 hm2
      rw [hm] at hm2
      injection hm2 with hm2
      subst hm2
      rw [list_get?_set_self t.arena p _ hp]
      rfl
  | none =>
    by_cases hpc : p = c
    · subst hpc
      have hmn : m = n := Option.some.inj (hm.symm.trans hn)
      subst hmn
      have hlen : p < (t.arena.set p { m with parent := some p }).length := by
        simpa using hp
      have hmid : (t.arena.set p { m with parent := some p }).get? p =
          some { m with parent := some p } :=
        list_get?_set_self t.arena p _ hp
      refine ⟨⟨(t.arena.set p { m with parent := some p }).set p
          { m with parent := some p, children := m.children ++ [p] }⟩,
        ?_, by simp, ?_, ?_⟩
      · simp only [ArenaTree.insert, hn, hpar, hmid]
      · intro n2 hn2
        rw [hn] at hn2
        injection hn2 with hn2
        subst hn2
        rw [list_get?_set_self _ p _ hlen]
        simp [hpar]
      · intro m2 hm2
        rw [hn] at hm2
        injection hm2 with hm2
        subst hm2
        rw [list_get?_set_self _ p _ hlen]
        rfl
    · have hmid : (t.arena.set c { n with parent := some p }).get? p =
          t.arena.get? p :=
        list_get?_set_ne t.arena c p _ (fun e => hpc e.symm)
      have hlenp : p < (t.arena.set c { n with parent := some p }).length := by
        simpa using hp
      refine ⟨⟨(t.arena.set c { n with parent := some p }).set p
          { m with children := m.children ++ [c] }⟩,
        ?_, by simp, ?_, ?_⟩
      · simp only [ArenaTree.insert, hn, hpar]
        rw [hmid, hm]
      · intro n2 hn2
        rw [hn] at hn2
        injection hn2 with hn2
        subst hn2
        rw [list_get?_set_ne _ p c _ hpc,
          list_get?_set_self t.arena c _ hc]
        simp [hpar]
      · intro m2 hm2
        rw [hm] at hm2
        injection hm2 with hm2
        subst hm2
        rw [list_get?_set_self _ p _ hlenp]
        rfl

/-- C3 witness: inserting child 1 under parent 0 in a two-record arena
succeeds, keeps the length, records parent 0 for child 1, and appends 1 to
the parent's child list. -/
theorem parent_visitor_insert_spec_witness :
    (0 : Nat) < 2 ∧ (1 : Nat) < 2 ∧
    ∃ t₂, ArenaTree.insert ⟨[Node.new 0 (.Value (.INT 1)), Node.new 1 (.Value (.INT 2))]⟩ 0 1 = .ok t₂ ∧
      t₂.arena.length = 2 ∧
      (t₂.arena.get? 1).map Node.parent = some (some 0) ∧
      (t₂.arena.get? 0).map Node.children = some [1] := by
  refine ⟨by decide, by decide, ?_⟩
  obtain ⟨t₂, h1, h2, h3, h4⟩ :=
    parent_visitor_insert_spec
      ⟨[Node.new 0 (.Value (.INT 1)), Node.new 1 (.Value (.INT 2))]⟩ 0 1
      (by decide) (by decide)
  exact ⟨t₂, h1, h2, h3 (Node.new 1 (.Value (.INT 2))) rfl,
    h4 (Node.new 0 (.Value (.INT 1))) rfl⟩

/-- C4 — the parent-index build is a pure, deterministic function of the
document: two runs of `ParentVisitor::new` over the same document yield
arenas with identical wrapped node values, parent indices, and child-index
lists. -/
theorem parent_visitor_new_deterministic (fuel : Nat) (c : ast.CDDL)
    (pv₁ pv₂ : ParentVisitor)
    (h₁ : ParentVisitor.new fuel c = .ok pv₁)
    (h₂ : ParentVisitor.new fuel c = .ok pv₂) :
    pv₁.arena_tree.arena.map Node.val = pv₂.arena_tree.arena.map Node.val ∧
    pv₁.arena_tree.arena.map Node.parent = pv₂.arena_tree.arena.map Node.parent ∧
    pv₁.arena_tree.arena.map Node.children = pv₂.arena_tree.arena.map Node.children := by
  have h : pv₁ = pv₂ := by
    have := h₁.symm.trans h₂
    exact Except.ok.inj this
  subst h
  exact ⟨rfl, rfl, rfl⟩

/-- C4 witness: the build over the `a = "myrule"` document succeeds, and the
determinism theorem applies to it. -/
theorem parent_visitor_new_deterministic_witness :
    ParentVisitor.new 32 myruleCDDL = .ok myrulePV ∧
    myrulePV.arena_tree.arena.map Node.val = myrulePV.arena_tree.arena.map Node.val ∧
    myrulePV.arena_tree.arena.map Node.parent = myrulePV.arena_tree.arena.map Node.parent ∧
    myrulePV.arena_tree.arena.map Node.children = myrulePV.arena_tree.arena.map Node.children := by
  have h : ParentVisitor.new 32 myruleCDDL = .ok myrulePV := rfl
  exact ⟨h, parent_visitor_new_deterministic 32 myruleCDDL myrulePV myrulePV h h⟩

/-- C1 — for the document parsed from `a = "myrule"`, after building the
parent index with `ParentVisitor::new`, the typed parent queries return the
full containment chain: Rule → CDDL, TypeRule → Rule, Type → TypeRule,
TypeChoice → Type, Type1 → TypeChoice, Type2 → Type1, and the literal text
value's parent is that Type2. -/
theorem parent_chain_myrule :
    ParentVisitor.new 32 myruleCDDL = .ok myrulePV ∧
    ast.Rule.parent myruleRule myrulePV = some myruleCDDL ∧
    ast.TypeRule.parent myruleTypeRule myrulePV = some myruleRule ∧
    ast.Type.parent myruleType myrulePV = some myruleTypeRule ∧
    ast.TypeChoice.parent myruleTypeChoice myrulePV = some myruleType ∧
    ast.Type1.parent myruleType1 myrulePV = some myruleTypeChoice ∧
    ast.Type2.parent myruleType2 myrulePV = some myruleType1 ∧
    ast.Value.parent (.TEXT "myrule") myrulePV = some myruleType2 :=
  ⟨rfl, rfl, rfl, rfl, rfl, rfl, rfl, rfl⟩

namespace parser

/-!
Claims C5–C10: the parser.  Small projection lemmas first.
-/

theorem next_token_tokens (p : Parser) : (next_token p).tokens = p.tokens.tail := rfl

theorem next_token_errors (p : Parser) : (next_token p).errors = p.errors := rfl

theorem peek_error_tokens (p : Parser) (t : Token) :
    (peek_error p t).tokens = p.tokens := rfl

theorem peek_error_peek (p : Parser) (t : Token) :
    (peek_error p t).peek_token = p.peek_token := rfl

theorem peek_error_errors (p : Parser) (t : Token) :
    (peek_error p t).errors = p.errors ++ [(t, p.peek_token)] := rfl

theorem cur_token_is_next_token (p : Parser) (t : Token) :
    cur_token_is (next_token p) t = peek_token_is p t := rfl

theorem peek_token_is_peek_error (p : Parser) (t t2 : Token) :
    peek_token_is (peek_error p t) t2 = peek_token_is p t2 := rfl

/-- Source `parse_type2` never touches the error list. -/
theorem parse_type2_errors (p : Parser) (x : Type2 × Parser)
    (h : parse_type2 p = .ok x) : x.2.errors = p.errors := by
  cases hc : p.cur_token <;> simp only [parse_type2, hc] at h
  case IDENT s =>
    injection h with h
    subst h
    rfl
  case VALUE v =>
    cases v <;> simp only at h
    case TEXT s =>
      injection h with h
      subst h
      rfl
    all_goals exact Except.noConfusion h
  all_goals exact Except.noConfusion h

/-- Source `parse_type1` never touches the error list. -/
theorem parse_type1_errors (p : Parser) (x : Type1 × Parser)
    (h : parse_type1 p = .ok x) : x.2.errors = p.errors := by
  cases hc : p.cur_token <;> simp only [parse_type1, hc, bind, Except.bind] at h
  case RANGE l u i =>
    injection h with h
    subst h
    rfl
  all_goals {
    cases h2 : parse_type2 p <;> rw [h2] at h
    · exact Except.noConfusion h
    · next y =>
      obtain ⟨t2, p2⟩ := y
      simp only at h
      injection h with h
      subst h
      exact parse_type2_errors p (t2, p2) h2
  }

/-- The `/`-separated choice loop never touches the error list. -/
theorem parse_type_choices_errors : ∀ (fuel : Nat) (acc : List Type1) (p : Parser)
    (x : List Type1 × Parser), parse_type_choices fuel acc p = .ok x →
    x.2.errors = p.errors
  | 0, acc, p, x, h => Except.noConfusion h
  | fuel + 1, acc, p, x, h => by
    simp only [parse_type_choices] at h
    by_cases hc : cur_token_is p .TCHOICE = true
    · rw [hc] at h
      simp only [if_true, bind, Except.bind] at h
      cases h1 : parse_type1 (next_token p) <;> rw [h1] at h
      · exact Except.noConfusion h
      · next y =>
        obtain ⟨t1, p1⟩ := y
        simp only at h
        have he := parse_type_choices_errors fuel (acc ++ [t1]) p1 x h
        rw [he, parse_type1_errors (next_token p) (t1, p1) h1]
        rfl
    · rw [Bool.not_eq_true] at hc
      rw [hc] at h
      simp only [Bool.false_eq_true, if_false] at h
      injection h with h
      subst h
      rfl

/-- Source `parse_type` never touches the error list. -/
theorem parse_type_errors (fuel : Nat) (p : Parser) (x : «Type» × Parser)
    (h : parse_type fuel p = .ok x) : x.2.errors = p.errors := by
  simp only [parse_type, bind, Except.bind] at h
  cases h1 : parse_type1 p <;> rw [h1] at h
  · exact Except.noConfusion h
  · next y =>
    obtain ⟨t1, p1⟩ := y
    simp only at h
    cases h2 : parse_type_choices fuel [t1] p1 <;> rw [h2] at h
    · exact Except.noConfusion h
    · next y2 =>
      obtain ⟨cs, p2⟩ := y2
      simp only at h
      injection h with h
      subst h
      have e2 := parse_type_choices_errors fuel [t1] p1 (cs, p2) h2
      have e1 := parse_type1_errors p (t1, p1) h1
      exact e2.trans e1

/-- The choice loop only ever appends to its accumulator. -/
theorem parse_type_choices_acc : ∀ (fuel : Nat) (acc : List Type1) (p : Parser)
    (x : List Type1 × Parser), parse_type_choices fuel acc p = .ok x →
    ∃ rest, x.1 = acc ++ rest
  | 0, _, _, _, h => Except.noConfusion h
  | fuel + 1, acc, p, x, h => by
    simp only [parse_type_choices] at h
    by_cases hc : cur_token_is p .TCHOICE = true
    · rw [hc] at h
      simp only [if_true, bind, Except.bind] at h
      cases h1 : parse_type1 (next_token p) <;> rw [h1] at h
      · exact Except.noConfusion h
      · next y =>
        obtain ⟨t1, p1⟩ := y
        simp only at h
        obtain ⟨rest, hrest⟩ := parse_type_choices_acc fuel (acc ++ [t1]) p1 x h
        exact ⟨t1 :: rest, by rw [hrest, List.append_assoc]; rfl⟩
    · rw [Bool.not_eq_true] at hc
      rw [hc] at h
      simp only [Bool.false_eq_true, if_false] at h
      injection h with h
      subst h
      exact ⟨[], (List.append_nil acc).symm⟩

/-- C7 — whenever `parse_type` succeeds, the returned choice list is
`t1 :: rest` where `t1` is the first parsed `Type1` (one entry first, one
more per `/` separator, appended in source order); in particular it is
never empty. -/
theorem parse_type_nonempty (fuel : Nat) (p : Parser) (ty : «Type») (p₂ : Parser)
    (h : parse_type fuel p = .ok (ty, p₂)) :
    ∃ t1 p₁ rest, parse_type1 p = .ok (t1, p₁) ∧ ty.choices = t1 :: rest := by
  simp only [parse_type, bind, Except.bind] at h
  cases h1 : parse_type1 p <;> rw [h1] at h
  · exact Except.noConfusion h
  · next y =>
    obtain ⟨t1, p1⟩ := y
    simp only at h
    cases h2 : parse_type_choices fuel [t1] p1 <;> rw [h2] at h
    · exact Except.noConfusion h
    · next y2 =>
      obtain ⟨cs, p3⟩ := y2
      simp only at h
      injection h with h
      have hty : «Type».mk cs = ty := congrArg Prod.fst h
      obtain ⟨rest, hrest⟩ := parse_type_choices_acc fuel [t1] p1 (cs, p3) h2
      refine ⟨t1, p1, rest, rfl, ?_⟩
      rw [← hty]
      show cs = t1 :: rest
      simpa using hrest

/-- C7 witness: `tchoice1 / tchoice2` parses to a two-entry choice list whose
head is the first parsed `Type1`. -/
theorem parse_type_nonempty_witness :
    parse_type 9 (Parser.new [.IDENT "tchoice1", .TCHOICE, .IDENT "tchoice2", .EOF]) =
      .ok (.mk [⟨.Typename ⟨.IDENT "tchoice1"⟩ none, none⟩,
                ⟨.Typename ⟨.IDENT "tchoice2"⟩ none, none⟩],
           ⟨[], .EOF, .EOF, []⟩) ∧
    ∃ t1 p₁ rest,
      parse_type1 (Parser.new [.IDENT "tchoice1", .TCHOICE, .IDENT "tchoice2", .EOF]) =
        .ok (t1, p₁) ∧
      («Type».mk [⟨.Typename ⟨.IDENT "tchoice1"⟩ none, none⟩,
                  ⟨.Typename ⟨.IDENT "tchoice2"⟩ none, none⟩]).choices = t1 :: rest :=
  ⟨rfl, parse_type_nonempty 9 _ _ _ rfl⟩

/-- C5 (amended) — after the rule name (with no generic parameters), the
parser tries `=`, `/=`, `//=` in that order, first match winning, and fails
with the expected-assignment error when all three fail; the produced rule
records only whether the `/=` type-choice alternation applied: its flag
equals the peeked-token test for `/=`, so a `//=` rule is not distinguished
from a plain `=` definition in the result. -/
theorem parse_rule_assignment_spec (fuel : Nat) (p : Parser) (n : String)
    (hcur : p.cur_token = .IDENT n)
    (hL : peek_token_is p .LANGLEBRACKET = false) :
    (peek_token_is p .ASSIGN = false → peek_token_is p .TCHOICEALT = false →
      peek_token_is p .GCHOICEALT = false →
      parse_rule fuel p = .error .expected_assign) ∧
    (∀ tr p₂, parse_rule fuel p = .ok (.«Type» tr, p₂) →
      tr.is_type_choice_alternate = peek_token_is p .TCHOICEALT) := by
  constructor
  · intro hA hT hG
    simp [parse_rule, hcur, hL, expect_peek, peek_token_is_peek_error, hA, hT, hG,
      bind, Except.bind]
  · intro tr p₂ h
    cases hA : peek_token_is p .ASSIGN with
    | true =>
      simp [parse_rule, hcur, hL, expect_peek, hA, bind, Except.bind,
        cur_token_is_next_token] at h
      split at h
      · exact Except.noConfusion h
      · split at h
        · exact Except.noConfusion h
        · injection h with h
          injection h with h1 h2
          injection h1 with h1
          rw [← h1]
    | false =>
      cases hT : peek_token_is p .TCHOICEALT with
      | true =>
        simp [parse_rule, hcur, hL, expect_peek, hA, hT, peek_token_is_peek_error,
          bind, Except.bind, cur_token_is_next_token] at h
        split at h
        · exact Except.noConfusion h
        · split at h
          · exact Except.noConfusion h
          · injection h with h
            injection h with h1 h2
            injection h1 with h1
            rw [← h1]
      | false =>
        cases hG : peek_token_is p .GCHOICEALT with
        | true =>
          simp [parse_rule, hcur, hL, expect_peek, hA, hT, hG, peek_token_is_peek_error,
            bind, Except.bind, cur_token_is_next_token] at h
          split at h
          · exact Except.noConfusion h
          · split at h
            · exact Except.noConfusion h
            · injection h with h
              injection h with h1 h2
              injection h1 with h1
              rw [← h1]
        | false =>
          simp [parse_rule, hcur, hL, expect_peek, hA, hT, hG, peek_token_is_peek_error,
            bind, Except.bind] at h

/-- C5 counterexample — the claim that the produced rule records which
alternation applied is false: `a //= b` and `a = b` parse to the very same
rule value, with the type-choice flag `false` in both. -/
theorem gchoice_rule_indistinguishable :
    (parse_rule 9 (Parser.new [.IDENT "a", .GCHOICEALT, .IDENT "b", .EOF])).map Prod.fst =
      (parse_rule 9 (Parser.new [.IDENT "a", .ASSIGN, .IDENT "b", .EOF])).map Prod.fst ∧
    (parse_rule 9 (Parser.new [.IDENT "a", .GCHOICEALT, .IDENT "b", .EOF])).map Prod.fst =
      .ok (.«Type» ⟨⟨.IDENT "a"⟩, none, false, .mk [⟨.Typename ⟨.IDENT "b"⟩ none, none⟩]⟩) :=
  ⟨rfl, rfl⟩

/-- C5 witness: on `a b` (no assignment operator) the parser fails with the
expected-assignment error, and on `a /= b` the produced rule's flag equals
the `/=` peek test (true). -/
theorem parse_rule_assignment_spec_witness :
    parse_rule 9 (Parser.new [.IDENT "a", .IDENT "b", .EOF]) = .error .expected_assign ∧
    (TypeRule.mk ⟨.IDENT "a"⟩ none true (.mk [⟨.Typename ⟨.IDENT "b"⟩ none, none⟩])).is_type_choice_alternate =
      peek_token_is (Parser.new [.IDENT "a", .TCHOICEALT, .IDENT "b", .EOF]) .TCHOICEALT := by
  constructor
  · exact (parse_rule_assignment_spec 9 (Parser.new [.IDENT "a", .IDENT "b", .EOF]) "a"
      rfl rfl).1 rfl rfl rfl
  · exact (parse_rule_assignment_spec 9 (Parser.new [.IDENT "a", .TCHOICEALT, .IDENT "b", .EOF]) "a"
      rfl rfl).2
      (TypeRule.mk ⟨.IDENT "a"⟩ none true (.mk [⟨.Typename ⟨.IDENT "b"⟩ none, none⟩]))
      ⟨[], .EOF, .EOF, [(.ASSIGN, .TCHOICEALT)]⟩ rfl

/-- C6 — whenever the token after the assignment operator is `(` (an inline
group-rule body), `parse_rule` raises the explicit unimplemented condition
instead of guessing a rule. -/
theorem parse_rule_lparen_unimplemented (fuel : Nat) (p : Parser) (n : String)
    (hcur : p.cur_token = .IDENT n)
    (hL : peek_token_is p .LANGLEBRACKET = false)
    (hop : peek_token_is p .ASSIGN = true ∨ peek_token_is p .TCHOICEALT = true ∨
      peek_token_is p .GCHOICEALT = true)
    (hnext : p.tokens.head? = some .LPAREN) :
    parse_rule fuel p = .error .unimplemented := by
  cases htk : p.tokens with
  | nil => rw [htk] at hnext; exact Option.noConfusion hnext
  | cons a rest =>
    rw [htk] at hnext
    injection hnext with ha
    subst ha
    rcases hop with hA | hT | hG
    · have hlp : peek_token_is (next_token p) .LPAREN = true := by
        show ((p.tokens.headD .EOF).tag == Token.tag .LPAREN) = true
        rw [htk]
        rfl
      simp [parse_rule, hcur, hL, expect_peek, hA, hlp, bind, Except.bind,
        cur_token_is_next_token]
    · have h4 : p.peek_token.tag = Token.TCHOICEALT.tag := by
        have h := hT
        simp [peek_token_is] at h
        exact h
      have hA : peek_token_is p .ASSIGN = false := by
        show (p.peek_token.tag == Token.tag .ASSIGN) = false
        rw [h4]
        rfl
      have hlp : peek_token_is (next_token (peek_error p .ASSIGN)) .LPAREN = true := by
        show ((p.tokens.headD .EOF).tag == Token.tag .LPAREN) = true
        rw [htk]
        rfl
      simp [parse_rule, hcur, hL, expect_peek, hA, hT, hlp, peek_token_is_peek_error,
        bind, Except.bind, cur_token_is_next_token]
    · have h5 : p.peek_token.tag = Token.GCHOICEALT.tag := by
        have h := hG
        simp [peek_token_is] at h
        exact h
      have hA : peek_token_is p .ASSIGN = false := by
        show (p.peek_token.tag == Token.tag .ASSIGN) = false
        rw [h5]
        rfl
      have hT : peek_token_is p .TCHOICEALT = false := by
        show (p.peek_token.tag == Token.tag .TCHOICEALT) = false
        rw [h5]
        rfl
      have hlp : peek_token_is
          (next_token (peek_error (peek_error p .ASSIGN) .TCHOICEALT)) .LPAREN = true := by
        show ((p.tokens.headD .EOF).tag == Token.tag .LPAREN) = true
        rw [htk]
        rfl
      simp [parse_rule, hcur, hL, expect_peek, hA, hT, hG, hlp, peek_token_is_peek_error,
        bind, Except.bind, cur_token_is_next_token]

/-- C6 witness: `a = ( …` hits the unimplemented inline group-rule branch. -/
theorem parse_rule_lparen_unimplemented_witness :
    parse_rule 9 (Parser.new [.IDENT "a", .ASSIGN, .LPAREN, .RANGLEBRACKET, .EOF]) =
      .error .unimplemented :=
  parse_rule_lparen_unimplemented 9
    (Parser.new [.IDENT "a", .ASSIGN, .LPAREN, .RANGLEBRACKET, .EOF]) "a"
    rfl rfl (Or.inl rfl) rfl

/-- C10 — a successful `parse_rule` whose assignment operator was `/=` or
`//=` nevertheless extends the accumulated error list with an entry recording
that `ASSIGN` was expected, because `expect_peek` records a peek error for
every non-matching alternative tried first: a fully successful parse can
leave the error list non-empty. -/
theorem parse_rule_alt_peek_error (fuel : Nat) (p : Parser) (n : String)
    (r : Rule) (p₂ : Parser)
    (hcur : p.cur_token = .IDENT n)
    (halt : peek_token_is p .TCHOICEALT = true ∨ peek_token_is p .GCHOICEALT = true)
    (h : parse_rule fuel p = .ok (r, p₂)) :
    (Token.ASSIGN, p.peek_token) ∈ p₂.errors := by
  rcases halt with hT | hG
  · have h4 : p.peek_token.tag = Token.TCHOICEALT.tag := by
      have h := hT
      simp [peek_token_is] at h
      exact h
    have hA : peek_token_is p .ASSIGN = false := by
      show (p.peek_token.tag == Token.tag .ASSIGN) = false
      rw [h4]
      rfl
    have hL : peek_token_is p .LANGLEBRACKET = false := by
      show (p.peek_token.tag == Token.tag .LANGLEBRACKET) = false
      rw [h4]
      rfl
    simp [parse_rule, hcur, hL, expect_peek, hA, hT, peek_token_is_peek_error,
      bind, Except.bind, cur_token_is_next_token] at h
    split at h
    · exact Except.noConfusion h
    · split at h
      · exact Except.noConfusion h
      · rename_i v heq
        injection h with h
        have hp : v.2 = p₂ := congrArg Prod.snd h
        have he := parse_type_errors fuel _ v heq
        rw [← hp, he]
        simp [peek_error_errors, next_token_errors]
  · have h5 : p.peek_token.tag = Token.GCHOICEALT.tag := by
      have h := hG
      simp [peek_token_is] at h
      exact h
    have hA : peek_token_is p .ASSIGN = false := by
      show (p.peek_token.tag == Token.tag .ASSIGN) = false
      rw [h5]
      rfl
    have hT : peek_token_is p .TCHOICEALT = false := by
      show (p.peek_token.tag == Token.tag .TCHOICEALT) = false
      rw [h5]
      rfl
    have hL : peek_token_is p .LANGLEBRACKET = false := by
      show (p.peek_token.tag == Token.tag .LANGLEBRACKET) = false
      rw [h5]
      rfl
    simp [parse_rule, hcur, hL, expect_peek, hA, hT, hG, peek_token_is_peek_error,
      bind, Except.bind, cur_token_is_next_token] at h
    split at h
    · exact Except.noConfusion h
    · split at h
      · exact Except.noConfusion h
      · rename_i v heq
        injection h with h
        have hp : v.2 = p₂ := congrArg Prod.snd h
        have he := parse_type_errors fuel _ v heq
        rw [← hp, he]
        simp [peek_error_errors, next_token_errors]

/-- C10 witness: `a /= b` parses successfully while leaving the recorded
expected-ASSIGN peek error in the error list. -/
theorem parse_rule_alt_peek_error_witness :
    parse_rule 9 (Parser.new [.IDENT "a", .TCHOICEALT, .IDENT "b", .EOF]) =
      .ok (.«Type» ⟨⟨.IDENT "a"⟩, none, true, .mk [⟨.Typename ⟨.IDENT "b"⟩ none, none⟩]⟩,
           ⟨[], .EOF, .EOF, [(.ASSIGN, .TCHOICEALT)]⟩) ∧
    (Token.ASSIGN, Token.TCHOICEALT) ∈
      (Parser.mk [] .EOF .EOF [(.ASSIGN, .TCHOICEALT)]).errors := by
  have h : parse_rule 9 (Parser.new [.IDENT "a", .TCHOICEALT, .IDENT "b", .EOF]) =
      .ok (.«Type» ⟨⟨.IDENT "a"⟩, none, true, .mk [⟨.Typename ⟨.IDENT "b"⟩ none, none⟩]⟩,
           ⟨[], .EOF, .EOF, [(.ASSIGN, .TCHOICEALT)]⟩) := rfl
  exact ⟨h, parse_rule_alt_peek_error 9
    (Parser.new [.IDENT "a", .TCHOICEALT, .IDENT "b", .EOF]) "a"
    (.«Type» ⟨⟨.IDENT "a"⟩, none, true, .mk [⟨.Typename ⟨.IDENT "b"⟩ none, none⟩]⟩)
    ⟨[], .EOF, .EOF, [(.ASSIGN, .TCHOICEALT)]⟩ rfl (Or.inl rfl) h⟩

/-- C8 counterexample — `parse_genericparm` on `<>` returns successfully
with an empty parameter list: the minimum of one parameter is not
enforced. -/
theorem parse_genericparm_empty_params_ok :
    (parse_genericparm 9 (Parser.new [.LANGLEBRACKET, .RANGLEBRACKET, .EOF])).map
      Prod.fst = .ok ⟨[]⟩ := rfl

/-- C8 (amended) — `parse_genericparm` consumes the bracketed span, collecting
identifiers and skipping commas until `>`, preserving source order (for
`<t, v>` it yields exactly `t` then `v`), but it enforces no minimum: on
`<>` it succeeds with an empty parameter list. -/
theorem parse_genericparm_spec :
    (parse_genericparm 9 (Parser.new [.LANGLEBRACKET, .IDENT "t", .COMMA, .IDENT "v",
        .RANGLEBRACKET, .EOF])).map Prod.fst =
      .ok ⟨[⟨.IDENT "t"⟩, ⟨.IDENT "v"⟩]⟩ ∧
    (parse_genericparm 9 (Parser.new [.LANGLEBRACKET, .RANGLEBRACKET, .EOF])).map
      (fun x => x.1.params.length) = .ok 0 :=
  ⟨rfl, rfl⟩

/-- On the parser state stuck at a compound range token inside generic
arguments, the element loop consumes nothing and exhausts any fuel: the
`RANGE` branch of `parse_type1` never advances, so the loop re-parses the
same token forever. -/
theorem parse_genericarg_loop_range_stuck : ∀ (fuel : Nat) (acc : List Type1),
    parse_genericarg_loop fuel acc ⟨[.EOF], .RANGE 1 2 true, .RANGLEBRACKET, []⟩ =
      .error .out_of_fuel
  | 0, _ => rfl
  | fuel + 1, acc => by
    have h := parse_genericarg_loop_range_stuck fuel
      (acc ++ [(⟨.Value (toString (1 : Int)),
        some (.RangeOp true, .Value (toString (2 : Int)))⟩ : Type1)])
    exact h

/-- C9 — `parse_genericarg` does not terminate when an element inside the
brackets is a compound range token: for every fuel the embedded loop reports
fuel exhaustion on `< 1..2 >`, because the source loops forever re-parsing
the unconsumed `RANGE` token. -/
theorem parse_genericarg_range_diverges (fuel : Nat) :
    parse_genericarg fuel
      (Parser.new [.LANGLEBRACKET, .RANGE 1 2 true, .RANGLEBRACKET, .EOF]) =
      .error .out_of_fuel := by
  have h := parse_genericarg_loop_range_stuck fuel []
  simp only [parse_genericarg, bind, Except.bind]
  rw [show next_token (Parser.new [.LANGLEBRACKET, .RANGE 1 2 true, .RANGLEBRACKET, .EOF]) =
      ⟨[.EOF], .RANGE 1 2 true, .RANGLEBRACKET, []⟩ from rfl]
  rw [h]

end parser
